import Mathlib

/-! Verification development for the transcript synchronization pipeline of
the dashboard-express repository.  The definitions below are a shallow
embedding of the relevant source functions: the numbering assigner
(src/webhook/processWebhook.ts), the turn sorter and metrics calculator
(src/services/transcriptDetail.ts), the semantic analyzer and its fallback
(src/services/openai.ts), the retry executor (src/utils/retry.ts) and the
remote fetch format handling (src/services/voiceflow.ts).  Timestamps are
modelled as already-parsed epoch milliseconds (the JS code always compares
them through new Date(x).getTime()). -/

namespace DashboardExpress

/-- One transcript summary from the remote platform, type VoiceflowTranscript
in src/services/voiceflow.ts.  createdAt is the parsed creation time in
epoch milliseconds. -/
structure VoiceflowTranscript where
  _id : String
  name : Option String := none
  image : Option String := none
  creatorID : Option String := none
  unread : Option Bool := none
  reportTags : Option (List String) := none
  createdAt : Int := 0
deriving DecidableEq, Repr

/-- Innermost slate node: the object child.children[0] read by
extractMessages in src/services/openai.ts; it carries a text field. -/
structure SlateGrandchild where
  text : String
deriving DecidableEq, Repr

/-- One slate child node as read by extractMessages: optional text, an
optional type tag (the code checks for the value "link") and optional
nested children. -/
structure SlateChild where
  text : Option String := none
  type : Option String := none
  children : Option (List SlateGrandchild) := none
deriving DecidableEq, Repr

/-- One slate content block: a list of child nodes. -/
structure SlateBlock where
  children : List SlateChild
deriving DecidableEq, Repr

/-- The payload.payload object of a turn: query and label fields for request
turns, and the slate content for text turns.  slateContent models the chain
payload.payload.slate.content: it is some when both slate and content are
present (the JS truthiness test passes for any present array, including an
empty one). -/
structure InnerPayload where
  query : Option String := none
  label : Option String := none
  slateContent : Option (List SlateBlock) := none
deriving DecidableEq, Repr

/-- The payload.data object holding the generic message and text fallback
fields. -/
structure DataField where
  message : Option String := none
  text : Option String := none
deriving DecidableEq, Repr

/-- The free-form turn payload (type VoiceflowPayload in
src/types/voiceflow.ts), restricted to the fields read by extractMessages.
Optional string fields model both absent fields and non-string values as
none when the code tests typeof x === "string", and model absent fields as
none where the code only tests truthiness. -/
structure VoiceflowPayload where
  message : Option String := none
  text : Option String := none
  type : Option String := none
  data : Option DataField := none
  payload : Option InnerPayload := none
deriving DecidableEq, Repr

/-- One raw turn (type VoiceflowTurn in src/services/transcriptDetail.ts).
startTime is the parsed start timestamp in epoch milliseconds. -/
structure VoiceflowTurn where
  turnID : String
  type : String
  payload : VoiceflowPayload := {}
  startTime : Int
  format : String := "trace"
deriving DecidableEq, Repr

/-- The derived metrics record produced by calculateTranscriptMetrics.
Response timestamps are epoch milliseconds; duration is in whole seconds. -/
structure TranscriptMetrics where
  messageCount : Nat
  firstResponse : Option Int
  lastResponse : Option Int
  duration : Option Int
  isComplete : Bool
deriving DecidableEq, Repr

/-- JS Math.round (d / 1000) for an integer millisecond difference d:
Math.round rounds half-ties toward positive infinity, which equals the
floor of (d + 500) / 1000. -/
def roundDivThousand (d : Int) : Int := Int.fdiv (d + 500) 1000

/-- calculateTranscriptMetrics from src/services/transcriptDetail.ts
(lines 160-192): message count over text and request turns, first and last
response straight from sequence order (indices 0 and length-1, not min or
max), duration as rounded whole seconds between them (null when there are
no turns, since Date objects are always truthy), and the completion flag
from the last turn in sequence order. -/
def calculateTranscriptMetrics (turns : List VoiceflowTurn) : TranscriptMetrics :=
  let messageCount :=
    (turns.filter fun t => t.type == "text" || t.type == "request").length
  let timestamps := turns.map (·.startTime)
  let firstResponse := timestamps.head?
  let lastResponse := timestamps.getLast?
  let duration :=
    match firstResponse, lastResponse with
    | some f, some l => some (roundDivThousand (l - f))
    | _, _ => none
  let isComplete :=
    match turns.getLast? with
    | none => false
    | some lastTurn =>
        lastTurn.type == "choice" ||
          (lastTurn.type == "text" &&
            !(turns.any fun t =>
                t.type == "request" && lastTurn.startTime < t.startTime))
  { messageCount, firstResponse, lastResponse, duration, isComplete }

/-- Observable outcome of one withRetry run: the returned value or thrown
error (error none models throwing the JS undefined lastError when the loop
never ran), how many times the operation was invoked, and the list of
backoff waits performed, in order. -/
structure RetryTrace (ε α : Type) where
  result : Except (Option ε) α
  attempts : Nat
  delays : List Nat

/-- The loop body of withRetry from src/utils/retry.ts: attempt index i,
the last error seen so far, and the number of remaining loop iterations.
On failure of any attempt but the last, waits delay * 2 ^ i before the next
attempt; after the last failed attempt the loop exits and the last error is
thrown with no further wait. -/
def withRetryGo (op : Nat → Except ε α) (delay : Nat) :
    Nat → Option ε → Nat → RetryTrace ε α
  | _, last, 0 => ⟨.error last, 0, []⟩
  | i, _, r + 1 =>
    match op i with
    | .ok a => ⟨.ok a, 1, []⟩
    | .error e =>
      if r = 0 then ⟨.error (some e), 1, []⟩
      else
        let t := withRetryGo op delay (i + 1) (some e) r
        ⟨t.result, t.attempts + 1, delay * 2 ^ i :: t.delays⟩

/-- withRetry (operation, retries, delay) from src/utils/retry.ts, with the
operation modelled as a function from the attempt index to that attempt's
outcome. -/
def withRetryModel (op : Nat → Except ε α) (retries : Nat) (delay : Nat) :
    RetryTrace ε α :=
  withRetryGo op delay 0 none retries

/-- Result of preassignTranscriptNumbers: the input transcripts paired with
their assigned numbers, and the project counter after the conditional
increment. -/
structure PreassignResult where
  assigned : List (VoiceflowTranscript × Nat)
  newCounter : Nat
deriving DecidableEq, Repr

/-- The assignment map at the end of preassignTranscriptNumbers
(src/webhook/processWebhook.ts lines 70-73): each transcript in input order
takes existingTranscriptMap.get(id) when that value is truthy (a stored
number 0 is falsy in JS and would fall through), and otherwise consumes the
post-incremented nextNumber. -/
def assignNumbers (lookup : String → Option Nat) :
    List VoiceflowTranscript → Nat → List (VoiceflowTranscript × Nat)
  | [], _ => []
  | t :: rest, next =>
    match lookup t._id with
    | some n =>
      if n ≠ 0 then (t, n) :: assignNumbers lookup rest next
      else (t, next) :: assignNumbers lookup rest (next + 1)
    | none => (t, next) :: assignNumbers lookup rest (next + 1)

/-- Lookup of an already-persisted transcript number for one external id,
as done through existingTranscriptMap built from the stored rows
(voiceflowTranscriptId, transcriptNumber) of the project.  The database
enforces uniqueness of ids per project, so the first match is the match. -/
def storedNumber (existing : List (String × Nat)) (id : String) : Option Nat :=
  existing.lookup id

/-- The body of preassignTranscriptNumbers from
src/webhook/processWebhook.ts (lines 16-74) once the project row was found,
as a function of the read counter value, the persisted
(externalId, number) rows of the project, and the batch of summaries:
counts the genuinely new summaries (those whose id is not in the map),
performs the single conditional increment of the counter by that count, and
assigns numbers with nextNumber starting at the read counter plus one. -/
def preassignCore (lastN : Nat) (existing : List (String × Nat))
    (transcripts : List VoiceflowTranscript) : PreassignResult :=
  let lookup := storedNumber existing
  let newTranscriptsCount :=
    (transcripts.filter fun t => (lookup t._id).isNone).length
  let counter :=
    if 0 < newTranscriptsCount then lastN + newTranscriptsCount else lastN
  { assigned := assignNumbers lookup transcripts (lastN + 1)
    newCounter := counter }

/-- The whole of preassignTranscriptNumbers including the project lookup:
a missing project row throws. -/
def preassignTranscriptNumbers (projectCounter : Option Nat)
    (existing : List (String × Nat))
    (transcripts : List VoiceflowTranscript) : Except String PreassignResult :=
  match projectCounter with
  | none => .error "Project not found"
  | some lastN => .ok (preassignCore lastN existing transcripts)

/-- The single atomic conditional increment that is the only mutation of
the project counter performed by preassignTranscriptNumbers (the guarded
prisma.project.update with an increment clause, lines 58-67). -/
def atomicConditionalIncrement (counter n : Nat) : Nat :=
  if 0 < n then counter + n else counter

/-- The purely local number assignment of preassignTranscriptNumbers,
computed from the counter value obtained by the initial read (nextNumber is
initialised to that read value plus one before the increment happens). -/
def assignFromRead (readValue : Nat) (existing : List (String × Nat))
    (transcripts : List VoiceflowTranscript) :
    List (VoiceflowTranscript × Nat) :=
  assignNumbers (storedNumber existing) transcripts (readValue + 1)

/-- Count of genuinely new summaries in a batch against the stored rows. -/
def newSummaryCount (existing : List (String × Nat))
    (transcripts : List VoiceflowTranscript) : Nat :=
  (transcripts.filter fun t => ((storedNumber existing) t._id).isNone).length

/-- Interleaved execution of two concurrent preassignTranscriptNumbers
invocations for the same project in which both initial counter reads happen
before either atomic increment.  Every await in the JS function is a
suspension point of the event loop, so this schedule is reachable whenever
two webhook syncs for one project overlap.  Returns both assignment lists
and the final counter. -/
def racyPreassignPair (counter : Nat) (existing : List (String × Nat))
    (ts1 ts2 : List VoiceflowTranscript) :
    List (VoiceflowTranscript × Nat) × List (VoiceflowTranscript × Nat) × Nat :=
  let read1 := counter
  let read2 := counter
  let afterFirst := atomicConditionalIncrement counter (newSummaryCount existing ts1)
  let afterSecond := atomicConditionalIncrement afterFirst (newSummaryCount existing ts2)
  (assignFromRead read1 existing ts1, assignFromRead read2 existing ts2, afterSecond)

/-- The same two invocations run strictly one after the other: the second
read sees the counter only after the first increment committed. -/
def sequentialPreassignPair (counter : Nat) (existing : List (String × Nat))
    (ts1 ts2 : List VoiceflowTranscript) :
    List (VoiceflowTranscript × Nat) × List (VoiceflowTranscript × Nat) × Nat :=
  let afterFirst := atomicConditionalIncrement counter (newSummaryCount existing ts1)
  let afterSecond := atomicConditionalIncrement afterFirst (newSummaryCount existing ts2)
  (assignFromRead counter existing ts1, assignFromRead afterFirst existing ts2, afterSecond)

/-- A raw turn tagged with its arrival index, as built by the map that adds
the sequence field before sorting in getTranscriptContent and
saveTranscriptTurns. -/
structure SequencedTurn extends VoiceflowTurn where
  sequence : Nat
deriving DecidableEq, Repr

/-- The comparator passed to Array.prototype.sort in getTranscriptContent
(src/services/transcriptDetail.ts lines 51-58) and saveTranscriptTurns
(lines 103-110): start time ascending; at equal times a request before a
text and a text after a request; any other tie by arrival index. -/
def turnCompare (a b : SequencedTurn) : Int :=
  if a.startTime ≠ b.startTime then a.startTime - b.startTime
  else if a.type == "request" && b.type == "text" then -1
  else if a.type == "text" && b.type == "request" then 1
  else (a.sequence : Int) - (b.sequence : Int)

/-- Insertion of one element into an already-processed list under an
integer comparator: the element lands before the first entry it compares at
or below. -/
def insertCmp (cmp : α → α → Int) (a : α) : List α → List α
  | [] => [a]
  | b :: l => if cmp a b ≤ 0 then a :: b :: l else b :: insertCmp cmp a l

/-- Stable insertion sort under an integer comparator.  For a consistent
comparator this is the unique stable sorted permutation that ECMAScript
requires of Array.prototype.sort, so the model is faithful to every
conforming engine there.  For an inconsistent comparator the JS order is
implementation-defined and real engines can diverge from any fixed model
(V8's TimSort can even move elements past non-compared neighbours), so in
that regime only conclusions cross-checked against the actual engine on the
concrete input are drawn (the counterexample below, where the V8 run agrees
with this model). -/
def sortByCmp (cmp : α → α → Int) : List α → List α
  | [] => []
  | a :: l => insertCmp cmp a (sortByCmp cmp l)

/-- The map tagging each fetched turn with its arrival index. -/
def enhanceTurns (turns : List VoiceflowTurn) : List SequencedTurn :=
  turns.mapIdx fun i t => { toVoiceflowTurn := t, sequence := i }

/-- The sorted, sequence-tagged turn list shared by getTranscriptContent
and saveTranscriptTurns. -/
def sortTurns (turns : List VoiceflowTurn) : List SequencedTurn :=
  sortByCmp turnCompare (enhanceTurns turns)

/-- Type priority used to state the tie-break order: request turns first,
text turns second, every other type outside the priority rule. -/
def typePriority (ty : String) : Nat :=
  if ty == "request" then 0 else if ty == "text" then 1 else 2

/-- Shape of a remote response body as far as the format checks are
concerned: a JSON array of items, or any non-array body. -/
inductive RemoteBody (α : Type) where
  | array (items : List α)
  | nonArray
deriving DecidableEq, Repr

/-- getTranscripts from src/services/voiceflow.ts (lines 50-59) as a
function of the received response body: a non-array body throws an
invalid-format error, an array body is returned as is. -/
def getTranscriptsModel (body : RemoteBody VoiceflowTranscript) :
    Except String (List VoiceflowTranscript) :=
  match body with
  | .array items => .ok items
  | .nonArray => .error "Invalid response format from Voiceflow API"

/-- One attempt of the operation wrapped by withRetry inside
getTranscriptContent (src/services/transcriptDetail.ts lines 26-78): a
non-array body is logged and an empty array is returned without throwing;
an array body is tagged with arrival indices, sorted, and the sequence
field stripped again. -/
def getTranscriptContentAttempt (body : RemoteBody VoiceflowTurn) :
    List VoiceflowTurn :=
  match body with
  | .array items => (sortTurns items).map (·.toVoiceflowTurn)
  | .nonArray => []

/-- getTranscriptContent (lines 18-91) as a function of a stable response
body: the attempt runs through withRetry (3 attempts, 1000 ms base delay),
then the final filter drops turns with a missing id or type.  The JS also
tests truthiness of the raw startTime string; start times are modelled as
parsed integers, so that test has no counterpart here. -/
def getTranscriptContentModel (body : RemoteBody VoiceflowTurn) :
    Except (Option String) (List VoiceflowTurn) :=
  match (withRetryModel
      (fun _ => (Except.ok (getTranscriptContentAttempt body) :
        Except String (List VoiceflowTurn))) 3 1000).result with
  | .ok turns => .ok (turns.filter fun t => t.turnID != "" && t.type != "")
  | .error e => .error e

/-- JS truthiness of an optional string value: present and nonempty. -/
def truthyString (s : Option String) : Bool :=
  match s with
  | some v => v != ""
  | none => false

/-- Text of one slate child node (src/services/openai.ts lines 31-36): a
link-typed child with a nonempty children array contributes its first
grandchild text; any other child contributes its own text field or the
empty string. -/
def slateChildText (c : SlateChild) : String :=
  match c.type, c.children with
  | some "link", some (g :: _) => g.text
  | _, _ => c.text.getD ""

/-- Text of one slate block: its children texts joined with no separator. -/
def slateBlockText (b : SlateBlock) : String :=
  String.join (b.children.map slateChildText)

/-- The slate flattening for an AI text turn: block texts joined by
newlines, then trimmed. -/
def slateText (content : List SlateBlock) : String :=
  (String.intercalate "\n" (content.map slateBlockText)).trim

/-- The generic fallback checks at the end of the extraction closure
(src/services/openai.ts lines 50-54): payload.message and payload.text
whenever they are strings (even empty ones), then the truthy data.message
and data.text, else the empty string. -/
def genericPayloadText (p : VoiceflowPayload) : String :=
  match p.message with
  | some m => m
  | none =>
    match p.text with
    | some t => t
    | none =>
      if truthyString (p.data.bind (·.message)) then
        (p.data.bind (·.message)).getD ""
      else if truthyString (p.data.bind (·.text)) then
        (p.data.bind (·.text)).getD ""
      else ""

/-- The per-turn extraction closure of extractMessages
(src/services/openai.ts lines 22-61), applied only to turns that passed
the text-or-request type filter: slate flattening for text turns with
slate content, query, label or the launch marker for request turns with an
inner payload (falling through to the generic checks), and the generic
checks otherwise. -/
def extractTurnMessage (t : VoiceflowTurn) : String :=
  if t.type == "text" && (t.payload.payload.bind (·.slateContent)).isSome then
    slateText ((t.payload.payload.bind (·.slateContent)).getD [])
  else if t.type == "request" && t.payload.payload.isSome then
    if truthyString (t.payload.payload.bind (·.query)) then
      (t.payload.payload.bind (·.query)).getD ""
    else if truthyString (t.payload.payload.bind (·.label)) then
      (t.payload.payload.bind (·.label)).getD ""
    else if t.payload.type == some "launch" then "Conversation started"
    else genericPayloadText t.payload
  else genericPayloadText t.payload

/-- extractMessages from src/services/openai.ts (lines 19-66): keep only
turns whose type is text or request, extract each message, drop empty
results. -/
def extractMessages (turns : List VoiceflowTurn) : List String :=
  ((turns.filter fun t => t.type == "text" || t.type == "request").map
      extractTurnMessage).filter fun m => decide (0 < m.length)

/-- The bilingual topic record of the analysis result. -/
structure TopicTranslations where
  en : String
  de : String
deriving DecidableEq, Repr

/-- The analysis record (type TranscriptAnalysis in
src/services/openai.ts). -/
structure TranscriptAnalysis where
  language : String
  topic : String
  topicTranslations : TopicTranslations
  name : String
deriving DecidableEq, Repr

/-- The deterministic fallback analysis returned both for zero extractable
text and for any failure of the analysis call. -/
def fallbackAnalysis : TranscriptAnalysis :=
  { language := "en"
    topic := "💭 Unknown Topic"
    topicTranslations := { en := "💭 Unknown Topic", de := "💭 Unbekanntes Thema" }
    name := "unknown" }

/-- The parsed JSON reply of the analysis service on success. -/
structure LlmReply where
  language : String
  topic_en : String
  topic_de : String
  name : String
deriving DecidableEq, Repr

/-- analyzeTranscript from src/services/openai.ts (lines 68-147).  The
remote chat completion together with its missing-content check and JSON
parsing is modelled as one oracle from the concatenated extracted text to
an optional parsed reply; none covers every failure (network error, missing
content, malformed JSON), all of which land in the same catch block.
Returns the analysis and a flag recording whether the outbound call was
made. -/
def analyzeTranscript (svc : String → Option LlmReply)
    (turns : List VoiceflowTurn) : TranscriptAnalysis × Bool :=
  let messages := extractMessages turns
  let concatenatedMessages := String.intercalate "\n" messages
  if messages.length = 0 then (fallbackAnalysis, false)
  else
    match svc concatenatedMessages with
    | none => (fallbackAnalysis, true)
    | some a =>
      ({ language := a.language
         topic := a.topic_en
         topicTranslations := { en := a.topic_en, de := a.topic_de }
         name := a.name }, true)

/-- Observable outcome of one per-transcript processing unit inside
processAndSaveTranscripts: the settled result (none would mean the loop was
never entered, impossible for a positive retry bound), the number of
attempts made, and the backoff waits performed in order.  The randomized
200-500 ms post-success rate-limit pause is not part of the backoff
trace. -/
structure UnitTrace (ε α : Type) where
  result : Option (Except ε α)
  attempts : Nat
  delays : List Nat

/-- The while loop of the per-transcript unit in processAndSaveTranscripts
(src/webhook/processWebhook.ts lines 134-206), with the whole attempt body
(transcript upsert, turn fetch, metrics, analysis, persistence) modelled as
a function from the attempt index to that attempt's outcome: a failed
attempt increments retryCount, rethrows once retryCount reaches
MAX_RETRIES, and otherwise waits 2 ^ retryCount * 1000 ms. -/
def transcriptUnitGo (attempt : Nat → Except ε α) :
    Nat → Nat → UnitTrace ε α
  | _, 0 => ⟨none, 0, []⟩
  | i, r + 1 =>
    match attempt i with
    | .ok a => ⟨some (.ok a), 1, []⟩
    | .error e =>
      if r = 0 then ⟨some (.error e), 1, []⟩
      else
        let t := transcriptUnitGo attempt (i + 1) r
        ⟨t.result, t.attempts + 1, 2 ^ (i + 1) * 1000 :: t.delays⟩

/-- One per-transcript retryable unit run with a given MAX_RETRIES bound
(the source fixes it to 3). -/
def runTranscriptUnit (attempt : Nat → Except ε α) (maxRetries : Nat) :
    UnitTrace ε α :=
  transcriptUnitGo attempt 0 maxRetries

/-- The batch phase of processAndSaveTranscripts: every unit is run to
completion and its settled outcome collected.  Promise.allSettled never
short-circuits on a rejection, and the chunks of 10 only group the same
sequence of units for progress logging, so the batch outcome is the list of
all per-unit outcomes; producing this full list is the Done state. -/
def processBatchModel (units : List (Nat → Except ε α)) :
    List (Option (Except ε α)) :=
  units.map fun u => (runTranscriptUnit u 3).result

/-- Lexicographic order on (start time, type priority, arrival index):
the total preorder the comparator implements on equal-time groups made of
request and text turns only. -/
def seqLexLe (a b : SequencedTurn) : Prop :=
  a.startTime < b.startTime ∨
    (a.startTime = b.startTime ∧
      (typePriority a.type < typePriority b.type ∨
        (typePriority a.type = typePriority b.type ∧ a.sequence ≤ b.sequence)))

/-- Three turns sharing one timestamp whose middle element has a type
outside request and text: the comparator is inconsistent on this input
(text before other before request pairwise, but text after request). -/
def mixedTieTurns : List VoiceflowTurn :=
  [{ turnID := "t1", type := "text", startTime := 0, format := "f" },
   { turnID := "t2", type := "other", startTime := 0, format := "f" },
   { turnID := "t3", type := "request", startTime := 0, format := "f" }]

/-- An equal-time request and text batch used to instantiate the ordering
theorem at a concrete input. -/
def requestTextTieTurns : List VoiceflowTurn :=
  [{ turnID := "w1", type := "text", startTime := 0, format := "f" },
   { turnID := "w2", type := "request", startTime := 0, format := "f" },
   { turnID := "w3", type := "text", startTime := 2000, format := "f" }]

/-- A choice turn whose payload carries the generic message field: the type
filter must keep its text out of the analysis. -/
def choiceTurnWithMessage : VoiceflowTurn :=
  { turnID := "c1", type := "choice", payload := { message := some "hello" },
    startTime := 0, format := "f" }

/-- A canned service reply used to show that the fallback is returned even
when the service would have answered. -/
def cannedReply : LlmReply :=
  { language := "xx", topic_en := "e", topic_de := "d", name := "n" }

theorem range_succ_map_shift (g : Nat → Nat) (n b : Nat) :
    (List.range (n + 1)).map (fun j => g (b + j)) =
      g b :: (List.range n).map fun j => g (b + 1 + j) := by
  rw [List.range_succ_eq_map, List.map_cons, List.map_map]
  refine congrArg₂ _ (by rw [Nat.add_zero]) (List.map_congr_left fun j _ => ?_)
  show g (b + (j + 1)) = g (b + 1 + j)
  rw [show b + (j + 1) = b + 1 + j from by omega]

theorem withRetryGo_allFail {ε α : Type} (errs : Nat → ε) (delay : Nat) :
    ∀ (r i : Nat) (last : Option ε), 0 < r →
      withRetryGo (fun j => (Except.error (errs j) : Except ε α)) delay i last r =
        ⟨.error (some (errs (i + (r - 1)))), r,
          (List.range (r - 1)).map fun j => delay * 2 ^ (i + j)⟩ := by
  intro r
  induction r with
  | zero => intro i last h; exact absurd h (by simp)
  | succ k ih =>
    intro i last _
    cases k with
    | zero => simp [withRetryGo]
    | succ m =>
      have hrec := ih (i + 1) (some (errs i)) (Nat.succ_pos m)
      simp only [Nat.add_sub_cancel] at hrec
      have hstep : withRetryGo (fun j => (Except.error (errs j) : Except ε α))
          delay i last (m + 1 + 1) =
          ⟨(withRetryGo (fun j => (Except.error (errs j) : Except ε α))
              delay (i + 1) (some (errs i)) (m + 1)).result,
            (withRetryGo (fun j => (Except.error (errs j) : Except ε α))
              delay (i + 1) (some (errs i)) (m + 1)).attempts + 1,
            delay * 2 ^ i :: (withRetryGo (fun j => (Except.error (errs j) : Except ε α))
              delay (i + 1) (some (errs i)) (m + 1)).delays⟩ := rfl
      rw [hstep, hrec]
      simp only [Nat.add_sub_cancel, RetryTrace.mk.injEq]
      refine ⟨by rw [show i + 1 + m = i + (m + 1) from by omega], trivial, ?_⟩
      exact (range_succ_map_shift (fun x => delay * 2 ^ x) m i).symm

theorem transcriptUnitGo_allFail {ε α : Type} (errs : Nat → ε) :
    ∀ (r i : Nat), 0 < r →
      transcriptUnitGo (fun j => (Except.error (errs j) : Except ε α)) i r =
        ⟨some (.error (errs (i + (r - 1)))), r,
          (List.range (r - 1)).map fun j => 2 ^ (i + j + 1) * 1000⟩ := by
  intro r
  induction r with
  | zero => intro i h; exact absurd h (by simp)
  | succ k ih =>
    intro i _
    cases k with
    | zero => simp [transcriptUnitGo]
    | succ m =>
      have hrec := ih (i + 1) (Nat.succ_pos m)
      simp only [Nat.add_sub_cancel] at hrec
      have hstep : transcriptUnitGo (fun j => (Except.error (errs j) : Except ε α))
          i (m + 1 + 1) =
          ⟨(transcriptUnitGo (fun j => (Except.error (errs j) : Except ε α))
              (i + 1) (m + 1)).result,
            (transcriptUnitGo (fun j => (Except.error (errs j) : Except ε α))
              (i + 1) (m + 1)).attempts + 1,
            2 ^ (i + 1) * 1000 :: (transcriptUnitGo
              (fun j => (Except.error (errs j) : Except ε α)) (i + 1) (m + 1)).delays⟩ := rfl
      rw [hstep, hrec]
      simp only [Nat.add_sub_cancel, UnitTrace.mk.injEq]
      refine ⟨by rw [show i + 1 + m = i + (m + 1) from by omega], trivial, ?_⟩
      exact (range_succ_map_shift (fun x => 2 ^ (x + 1) * 1000) m i).symm

/-- C7: the Retry Executor invokes an always-failing operation exactly
maxAttempts times, fails with the last attempt's error, waits
baseDelay * 2 ^ i between attempt i and attempt i + 1 (attempts counted
from 0), and performs no wait after the final failed attempt: the wait list
has exactly maxAttempts - 1 entries baseDelay * 2 ^ 0, ...,
baseDelay * 2 ^ (maxAttempts - 2). -/
theorem withRetry_exhaustion {ε α : Type} (errs : Nat → ε)
    (maxAttempts baseDelay : Nat) (h : 1 ≤ maxAttempts) :
    withRetryModel (fun j => (Except.error (errs j) : Except ε α))
        maxAttempts baseDelay =
      ⟨.error (some (errs (maxAttempts - 1))), maxAttempts,
        (List.range (maxAttempts - 1)).map fun i => baseDelay * 2 ^ i⟩ := by
  have hgo := withRetryGo_allFail (α := α) errs baseDelay maxAttempts 0 none h
  simpa [withRetryModel] using hgo

/-- Witness: an operation failing with its attempt index, three attempts,
1000 ms base delay: three invocations, waits of 1000 ms and 2000 ms, final
error that of attempt 2. -/
theorem withRetry_exhaustion_witness :
    withRetryModel (fun j => (Except.error j : Except Nat Unit)) 3 1000 =
      ⟨.error (some 2), 3, [1000, 2000]⟩ := by
  rw [withRetry_exhaustion (fun j => j) 3 1000 (by norm_num)]
  rfl

/-- C5 counterexample: a per-transcript unit whose every attempt fails is
attempted exactly 3 times with backoff waits of 2000 ms and 4000 ms and
no other wait; in particular no 8-second wait ever occurs, contradicting
the claimed inter-attempt delays of 2s, 4s, 8s. -/
theorem transcriptUnit_noEightSecondWait :
    (runTranscriptUnit (fun j => (Except.error j : Except Nat Unit)) 3).delays
        = [2000, 4000] ∧
      8000 ∉ (runTranscriptUnit
          (fun j => (Except.error j : Except Nat Unit)) 3).delays ∧
      (runTranscriptUnit (fun j => (Except.error j : Except Nat Unit)) 3).attempts
        = 3 := by
  refine ⟨rfl, ?_, rfl⟩
  show 8000 ∉ [2000, 4000]
  decide

/-- C5 amended: an always-failing per-transcript unit is attempted exactly
3 times with inter-attempt waits of 2s and 4s, fails with the last
attempt's error, and inside a batch that failure replaces only its own
settled slot: every other unit's outcome is produced unchanged and the
batch still yields the full outcome list (the Done state). -/
theorem processBatch_partialFailure {ε α : Type} (errs : Nat → ε)
    (pre post : List (Nat → Except ε α)) :
    runTranscriptUnit (fun j => (Except.error (errs j) : Except ε α)) 3 =
        ⟨some (.error (errs 2)), 3, [2000, 4000]⟩ ∧
      processBatchModel
          (pre ++ (fun j => (Except.error (errs j) : Except ε α)) :: post) =
        processBatchModel pre ++ some (.error (errs 2)) :: processBatchModel post := by
  have h1 : runTranscriptUnit (fun j => (Except.error (errs j) : Except ε α)) 3 =
      ⟨some (.error (errs 2)), 3, [2000, 4000]⟩ := by
    have hgo := transcriptUnitGo_allFail (α := α) errs 3 0 (by norm_num)
    rw [runTranscriptUnit, hgo]
    rfl
  refine ⟨h1, ?_⟩
  simp [processBatchModel, h1]

/-- C8 counterexample: a non-array body for the turns fetch does not fail
the operation: getTranscriptContent logs it and resolves with the empty
turn list instead of an error. -/
theorem fetchTurns_nonArray_returnsValue :
    getTranscriptContentModel RemoteBody.nonArray = Except.ok [] := rfl

/-- C8 amended: for the transcript-list fetch a non-array body is the one
fatal format error (the operation fails exactly on non-array bodies), while
the turns fetch never fails on the body shape: it resolves with a value on
every body, with the empty list on a non-array body. -/
theorem remoteFormat_nonArray (b1 : RemoteBody VoiceflowTranscript)
    (b2 : RemoteBody VoiceflowTurn) :
    getTranscriptsModel RemoteBody.nonArray =
        Except.error "Invalid response format from Voiceflow API" ∧
      ((∃ e, getTranscriptsModel b1 = Except.error e) ↔
        b1 = RemoteBody.nonArray) ∧
      getTranscriptContentModel RemoteBody.nonArray = Except.ok [] ∧
      ∃ l, getTranscriptContentModel b2 = Except.ok l := by
  refine ⟨rfl, ⟨?_, ?_⟩, rfl, ?_⟩
  · rintro ⟨e, he⟩
    cases b1 with
    | array items => simp [getTranscriptsModel] at he
    | nonArray => rfl
  · rintro rfl
    exact ⟨_, rfl⟩
  · cases b2 with
    | array items => exact ⟨_, rfl⟩
    | nonArray => exact ⟨[], rfl⟩

/-- C9: the counter mutation itself is the single atomic conditional
increment, but the assigned numbers are computed from the counter value
read before that increment.  In the interleaving where two concurrent syncs
for one project both read the counter before either increments it (counter
0, no stored rows, one new transcript each), both assign the number 1, so
the same number goes to two different transcripts, while the counter ends
at 2; the same two batches run strictly sequentially get the numbers 1
and 2. -/
theorem racyPreassign_doubleAssigns :
    racyPreassignPair 0 [] [{ _id := "a" }] [{ _id := "b" }] =
        ([({ _id := "a" }, 1)], [({ _id := "b" }, 1)], 2) ∧
      sequentialPreassignPair 0 [] [{ _id := "a" }] [{ _id := "b" }] =
        ([({ _id := "a" }, 1)], [({ _id := "b" }, 2)], 2) :=
  ⟨rfl, rfl⟩

/-- C6 counterexample: the deterministic fallback returned for a
zero-extractable-text input does not carry identical placeholder topic
strings in English and German: the English and the German placeholder
differ. -/
theorem analyzeFallback_placeholdersDiffer :
    (analyzeTranscript (fun _ => none) []).1.topicTranslations.en ≠
      (analyzeTranscript (fun _ => none) []).1.topicTranslations.de := by
  decide

/-- C6 amended: with zero extractable text, analyze returns the
deterministic fallback (language en, name unknown, the fixed English and
German placeholder topics) without making the outbound call; and whenever
the analysis call fails (the oracle returns none, covering network errors,
missing content and malformed replies), the same deterministic fallback is
returned instead of an error propagating. -/
theorem analyzeTranscript_fallback (svc : String → Option LlmReply)
    (turns : List VoiceflowTurn) :
    (extractMessages turns = [] →
        analyzeTranscript svc turns = (fallbackAnalysis, false)) ∧
      (svc (String.intercalate "\n" (extractMessages turns)) = none →
        (analyzeTranscript svc turns).1 = fallbackAnalysis) ∧
      fallbackAnalysis =
        { language := "en", topic := "💭 Unknown Topic",
          topicTranslations :=
            { en := "💭 Unknown Topic", de := "💭 Unbekanntes Thema" },
          name := "unknown" } := by
  refine ⟨?_, ?_, rfl⟩
  · intro h
    simp [analyzeTranscript, h]
  · intro h
    by_cases hm : (extractMessages turns).length = 0
    · simp [analyzeTranscript, hm]
    · simp [analyzeTranscript, hm, h]

/-- Witness for the amended C6 at the empty turn list and an
always-failing service: the fallback is returned with no outbound call,
and an analysis failure also lands on the fallback. -/
theorem analyzeTranscript_fallback_witness :
    analyzeTranscript (fun _ => none) [] = (fallbackAnalysis, false) ∧
      (analyzeTranscript (fun _ => none) []).1 = fallbackAnalysis := by
  have h := analyzeTranscript_fallback (fun _ => none) []
  exact ⟨h.1 rfl, h.2.1 rfl⟩

/-- C10: text extraction sees only text and request turns (filtering the
input to those two types first changes nothing), and a turn list without
any text or request turn yields no messages, so analyze returns the
deterministic fallback without the outbound call, whatever the service
would have answered and whatever generic message or text fields the other
turns carry in their payloads. -/
theorem extractMessages_typeFilter (turns : List VoiceflowTurn)
    (svc : String → Option LlmReply) :
    extractMessages turns =
        extractMessages
          (turns.filter fun t => t.type == "text" || t.type == "request") ∧
      ((∀ t ∈ turns, t.type ≠ "text" ∧ t.type ≠ "request") →
        extractMessages turns = [] ∧
          analyzeTranscript svc turns = (fallbackAnalysis, false)) := by
  constructor
  · simp [extractMessages, List.filter_filter]
  · intro h
    have hnil :
        turns.filter (fun t => t.type == "text" || t.type == "request") = [] := by
      rw [List.filter_eq_nil_iff]
      intro t ht
      have ht2 := h t ht
      simp only [Bool.or_eq_true, beq_iff_eq]
      rintro (h1 | h2)
      exacts [ht2.1 h1, ht2.2 h2]
    have hmsg : extractMessages turns = [] := by simp [extractMessages, hnil]
    exact ⟨hmsg, by simp [analyzeTranscript, hmsg]⟩

/-- Witness for C10 at a single choice turn whose payload carries a generic
message field, against a service that would answer: the message is not
extracted and the fallback is returned without the call. -/
theorem extractMessages_typeFilter_witness :
    extractMessages [choiceTurnWithMessage] = [] ∧
      analyzeTranscript (fun _ => some cannedReply) [choiceTurnWithMessage] =
        (fallbackAnalysis, false) :=
  (extractMessages_typeFilter [choiceTurnWithMessage]
    (fun _ => some cannedReply)).2 (by decide)

/-- C4: over a turn sequence in normalized order, the metrics calculator
counts exactly the text and request turns, takes first and last response
from sequence order (head and last of the sequence, not a min or max),
reports the duration as rounded whole seconds between them and null for an
empty sequence, and sets the completion flag exactly when the last turn is
a choice, or is a text with no request turn bearing a strictly later
timestamp; the two concrete examples of the specification come out as
claimed. -/
theorem calculateTranscriptMetrics_spec (turns : List VoiceflowTurn)
    (hsorted : turns.Pairwise fun a b => a.startTime ≤ b.startTime) :
    (calculateTranscriptMetrics turns).messageCount =
        (turns.filter fun t => decide (t.type = "text" ∨ t.type = "request")).length ∧
      (calculateTranscriptMetrics turns).firstResponse =
        turns.head?.map (·.startTime) ∧
      (calculateTranscriptMetrics turns).lastResponse =
        turns.getLast?.map (·.startTime) ∧
      (turns = [] → (calculateTranscriptMetrics turns).duration = none) ∧
      (∀ f l, turns.head? = some f → turns.getLast? = some l →
        (calculateTranscriptMetrics turns).duration =
          some (roundDivThousand (l.startTime - f.startTime))) ∧
      ((calculateTranscriptMetrics turns).isComplete = true ↔
        ∃ lt, turns.getLast? = some lt ∧
          (lt.type = "choice" ∨
            (lt.type = "text" ∧
              ∀ t ∈ turns, t.type = "request" → t.startTime ≤ lt.startTime))) ∧
      calculateTranscriptMetrics
          [{ turnID := "1", type := "request", startTime := 0, format := "f" },
           { turnID := "2", type := "text", startTime := 5000, format := "f" }] =
        { messageCount := 2, firstResponse := some 0, lastResponse := some 5000,
          duration := some 5, isComplete := true } ∧
      (calculateTranscriptMetrics
          [{ turnID := "1", type := "text", startTime := 0, format := "f" },
           { turnID := "2", type := "request", startTime := 10000, format := "f" }]).isComplete
        = false := by
  refine ⟨?_, ?_, ?_, ?_, ?_, ?_, by decide, by decide⟩
  · show (turns.filter fun t => t.type == "text" || t.type == "request").length = _
    congr 1
    refine List.filter_congr fun t _ => ?_
    by_cases h1 : t.type = "text" <;> by_cases h2 : t.type = "request" <;>
      simp [h1, h2]
  · show (turns.map (·.startTime)).head? = _
    exact List.head?_map _ _
  · show (turns.map (·.startTime)).getLast? = _
    exact List.getLast?_map _ _
  · rintro rfl; rfl
  · intro f l hf hl
    show (match (turns.map (·.startTime)).head?, (turns.map (·.startTime)).getLast? with
        | some a, some b => some (roundDivThousand (b - a))
        | _, _ => none) = _
    rw [List.head?_map, List.getLast?_map, hf, hl]
    rfl
  · show (match turns.getLast? with
        | none => false
        | some lastTurn =>
            lastTurn.type == "choice" ||
              (lastTurn.type == "text" &&
                !(turns.any fun t =>
                    t.type == "request" && lastTurn.startTime < t.startTime))) = true ↔ _
    cases hlast : turns.getLast? with
    | none => simp
    | some lt =>
      simp [Bool.or_eq_true, Bool.and_eq_true, beq_iff_eq, Bool.not_eq_true',
        List.any_eq_false, not_and, Int.not_lt]

/-- Witness for C4: the theorem applied to the request-then-text example,
which is in normalized order, gives the concrete metrics of the
specification. -/
theorem calculateTranscriptMetrics_spec_witness :
    calculateTranscriptMetrics
        [{ turnID := "1", type := "request", startTime := 0, format := "f" },
         { turnID := "2", type := "text", startTime := 5000, format := "f" }] =
      { messageCount := 2, firstResponse := some 0, lastResponse := some 5000,
        duration := some 5, isComplete := true } :=
  (calculateTranscriptMetrics_spec
      [{ turnID := "1", type := "request", startTime := 0, format := "f" },
       { turnID := "2", type := "text", startTime := 5000, format := "f" }]
      (by decide)).2.2.2.2.2.2.1

theorem storedNumber_pos :
    ∀ (existing : List (String × Nat)), (∀ p ∈ existing, 0 < p.2) →
      ∀ id n, storedNumber existing id = some n → 0 < n := by
  intro existing
  induction existing with
  | nil => intro _ id n h; simp [storedNumber, List.lookup] at h
  | cons p rest ih =>
    intro hpos id n h
    obtain ⟨k, v⟩ := p
    simp only [storedNumber, List.lookup] at h
    split at h
    · cases h
      exact hpos (k, n) (List.mem_cons_self _ _)
    · exact ih (fun q hq => hpos q (List.mem_cons_of_mem _ hq)) id n h

theorem assignNumbers_spec (lookup : String → Option Nat)
    (hpos : ∀ id n, lookup id = some n → 0 < n) :
    ∀ (ts : List VoiceflowTranscript) (next : Nat),
      ((assignNumbers lookup ts next).filter
            fun p => (lookup p.1._id).isNone).map (·.1) =
          ts.filter (fun t => (lookup t._id).isNone) ∧
        ((assignNumbers lookup ts next).filter
            fun p => (lookup p.1._id).isNone).map (·.2) =
          List.range' next (ts.filter fun t => (lookup t._id).isNone).length := by
  intro ts
  induction ts with
  | nil => intro next; simp [assignNumbers]
  | cons t rest ih =>
    intro next
    cases hl : lookup t._id with
    | some n =>
      have hne : n ≠ 0 := Nat.pos_iff_ne_zero.mp (hpos _ _ hl)
      simpa [assignNumbers, hl, hne] using ih next
    | none =>
      simpa [assignNumbers, hl, List.range'_succ] using ih (next + 1)

theorem assignNumbers_fst (lookup : String → Option Nat) :
    ∀ (ts : List VoiceflowTranscript) (next : Nat),
      (assignNumbers lookup ts next).map (·.1) = ts := by
  intro ts
  induction ts with
  | nil => intro next; simp [assignNumbers]
  | cons t rest ih =>
    intro next
    cases hl : lookup t._id with
    | some n => by_cases hn : n ≠ 0 <;> simp [assignNumbers, hl, hn, ih]
    | none => simp [assignNumbers, hl, ih]

theorem assignNumbers_known (lookup : String → Option Nat)
    (hpos : ∀ id n, lookup id = some n → 0 < n) :
    ∀ (ts : List VoiceflowTranscript) (next : Nat),
      ∀ p ∈ assignNumbers lookup ts next, ∀ n, lookup p.1._id = some n → p.2 = n := by
  intro ts
  induction ts with
  | nil => intro next p hp; simp [assignNumbers] at hp
  | cons t rest ih =>
    intro next p hp n hn
    cases hl : lookup t._id with
    | some m =>
      have hm : m ≠ 0 := Nat.pos_iff_ne_zero.mp (hpos _ _ hl)
      rw [assignNumbers, hl] at hp
      simp only [hm, if_true, ne_eq, not_false_eq_true, List.mem_cons] at hp
      rcases hp with rfl | hp
      · simp only at hn
        rw [hl] at hn
        cases hn
        rfl
      · exact ih next p hp n hn
    | none =>
      rw [assignNumbers, hl] at hp
      rcases List.mem_cons.mp hp with rfl | hp
      · simp only at hn
        rw [hl] at hn
        cases hn
      · exact ih (next + 1) p hp n hn

theorem assignNumbers_pos (lookup : String → Option Nat)
    (hpos : ∀ id n, lookup id = some n → 0 < n) :
    ∀ (ts : List VoiceflowTranscript) (next : Nat), 0 < next →
      ∀ p ∈ assignNumbers lookup ts next, 0 < p.2 := by
  intro ts
  induction ts with
  | nil => intro next _ p hp; simp [assignNumbers] at hp
  | cons t rest ih =>
    intro next hnext p hp
    cases hl : lookup t._id with
    | some m =>
      have hm : m ≠ 0 := Nat.pos_iff_ne_zero.mp (hpos _ _ hl)
      rw [assignNumbers, hl] at hp
      simp only [hm, if_true, ne_eq, not_false_eq_true, List.mem_cons] at hp
      rcases hp with rfl | hp
      · exact hpos _ _ hl
      · exact ih next hnext p hp
    | none =>
      rw [assignNumbers, hl] at hp
      rcases List.mem_cons.mp hp with rfl | hp
      · exact hnext
      · exact ih (next + 1) (Nat.lt_of_lt_of_le hnext (Nat.le_succ _)) p hp

theorem assignNumbers_all_found (lookup : String → Option Nat) :
    ∀ (ts : List VoiceflowTranscript) (next : Nat),
      (∀ t ∈ ts, ∃ n, lookup t._id = some n ∧ n ≠ 0) →
      assignNumbers lookup ts next = ts.map fun t => (t, (lookup t._id).getD 0) := by
  intro ts
  induction ts with
  | nil => intro next _; simp [assignNumbers]
  | cons t rest ih =>
    intro next h
    obtain ⟨n, hl, hn⟩ := h t (List.mem_cons_self _ _)
    simp [assignNumbers, hl, hn,
      ih next fun u hu => h u (List.mem_cons_of_mem _ hu)]

theorem lookup_assoc_of_nodup :
    ∀ (A : List (VoiceflowTranscript × Nat)),
      (A.map fun p => p.1._id).Nodup →
      ∀ p ∈ A, storedNumber (A.map fun q => (q.1._id, q.2)) p.1._id = some p.2 := by
  intro A
  induction A with
  | nil => simp
  | cons q rest ih =>
    intro hnd p hp
    rw [List.map_cons] at hnd
    have hnd2 := List.nodup_cons.mp hnd
    rcases List.mem_cons.mp hp with rfl | hp
    · simp [storedNumber, List.lookup]
    · have hne : (p.1._id == q.1._id) = false := by
        refine beq_eq_false_iff_ne.mpr fun he => hnd2.1 ?_
        rw [← he]
        exact List.mem_map_of_mem _ hp
      simp only [List.map_cons, storedNumber, List.lookup, hne]
      exact ih hnd2.2 p hp

/-- C1: for a project with counter L, the assigner hands the new summaries
(those with no persisted number) exactly the consecutive numbers
L+1, ..., L+N, consumed in input order, where N counts the new summaries,
and the counter afterwards equals L+N; the project lookup step returns
exactly this result.  The hypothesis that persisted numbers are positive
reflects every reachable store: numbers are only ever created from
counter + 1 with the counter starting at 0 (a stored 0 would be falsy in
the JS lookup and be silently renumbered). -/
theorem preassign_contiguity (lastN : Nat) (existing : List (String × Nat))
    (ts : List VoiceflowTranscript)
    (hpos : ∀ p ∈ existing, 0 < p.2) :
    preassignTranscriptNumbers (some lastN) existing ts =
        .ok (preassignCore lastN existing ts) ∧
      ((preassignCore lastN existing ts).assigned.filter
          fun p => (storedNumber existing p.1._id).isNone).map (·.1) =
        ts.filter (fun t => (storedNumber existing t._id).isNone) ∧
      ((preassignCore lastN existing ts).assigned.filter
          fun p => (storedNumber existing p.1._id).isNone).map (·.2) =
        List.range' (lastN + 1) (newSummaryCount existing ts) ∧
      (preassignCore lastN existing ts).newCounter =
        lastN + newSummaryCount existing ts := by
  have hp := storedNumber_pos existing hpos
  have hs := assignNumbers_spec (storedNumber existing) hp ts (lastN + 1)
  refine ⟨rfl, hs.1, hs.2, ?_⟩
  show (if 0 < newSummaryCount existing ts
      then lastN + newSummaryCount existing ts else lastN) = _
  by_cases h : 0 < newSummaryCount existing ts
  · rw [if_pos h]
  · rw [if_neg h]; omega

/-- Witness for C1: counter 5, one stored row (id a, number 2), batch
a, b, c: a keeps 2, the new b and c get 6 and 7, the counter ends at 7. -/
theorem preassign_contiguity_witness :
    preassignTranscriptNumbers (some 5) [("a", 2)]
        [{ _id := "a" }, { _id := "b" }, { _id := "c" }] =
      .ok { assigned := [({ _id := "a" }, 2), ({ _id := "b" }, 6), ({ _id := "c" }, 7)],
            newCounter := 7 } := by
  rw [(preassign_contiguity 5 [("a", 2)]
    [{ _id := "a" }, { _id := "b" }, { _id := "c" }] (by decide)).1]
  rfl

/-- C2: every summary whose external id has a persisted (positive) number
is assigned exactly that stored number, and running the assigner a second
time over the store left by the first run (same summary set, with the ids
pairwise distinct as they are for a remote summary set) reproduces the
identical assignment and allocates no new number: the counter stays put. -/
theorem preassign_idempotent (lastN : Nat) (existing : List (String × Nat))
    (ts : List VoiceflowTranscript)
    (hpos : ∀ p ∈ existing, 0 < p.2)
    (hnd : (ts.map (·._id)).Nodup) :
    preassignTranscriptNumbers (some lastN) existing ts =
        .ok (preassignCore lastN existing ts) ∧
      (∀ p ∈ (preassignCore lastN existing ts).assigned, ∀ n,
        storedNumber existing p.1._id = some n → p.2 = n) ∧
      preassignTranscriptNumbers (some (preassignCore lastN existing ts).newCounter)
          ((preassignCore lastN existing ts).assigned.map fun p => (p.1._id, p.2)) ts =
        .ok { assigned := (preassignCore lastN existing ts).assigned,
              newCounter := (preassignCore lastN existing ts).newCounter } := by
  have hp := storedNumber_pos existing hpos
  refine ⟨rfl, assignNumbers_known (storedNumber existing) hp ts (lastN + 1), ?_⟩
  set A := assignNumbers (storedNumber existing) ts (lastN + 1) with hA
  have hfst : A.map (·.1) = ts := assignNumbers_fst (storedNumber existing) ts (lastN + 1)
  have hndA : (A.map fun p => p.1._id).Nodup := by
    have : (A.map fun p => p.1._id) = ts.map (·._id) := by
      rw [← hfst, List.map_map]
      rfl
    rw [this]; exact hnd
  have hAssoc := lookup_assoc_of_nodup A hndA
  have hposA : ∀ p ∈ A, 0 < p.2 :=
    assignNumbers_pos (storedNumber existing) hp ts (lastN + 1) (Nat.succ_pos _)
  have hfound : ∀ t ∈ ts, ∃ n,
      storedNumber (A.map fun q => (q.1._id, q.2)) t._id = some n ∧ n ≠ 0 := by
    intro t ht
    rw [← hfst] at ht
    obtain ⟨p, hpA, hpt⟩ := List.mem_map.mp ht
    refine ⟨p.2, ?_, Nat.pos_iff_ne_zero.mp (hposA p hpA)⟩
    rw [← hpt]
    exact hAssoc p hpA
  have hcnt : (ts.filter
      fun t => (storedNumber (A.map fun q => (q.1._id, q.2)) t._id).isNone) = [] := by
    rw [List.filter_eq_nil_iff]
    intro t ht
    obtain ⟨n, hn, _⟩ := hfound t ht
    simp [hn]
  have hassigned2 : ∀ next,
      assignNumbers (storedNumber (A.map fun q => (q.1._id, q.2))) ts next = A := by
    intro next
    rw [assignNumbers_all_found _ ts _ hfound, ← hfst, List.map_map]
    refine (List.map_congr_left fun p hpA => ?_).trans (List.map_id A)
    show (p.1, (storedNumber (A.map fun q => (q.1._id, q.2)) p.1._id).getD 0) = p
    rw [hAssoc p hpA]
    rfl
  rw [hA] at hcnt hassigned2
  show Except.ok (preassignCore _ _ _) = _
  unfold preassignCore
  simp only [hcnt, List.length_nil, Nat.lt_irrefl, if_false, hassigned2, hA]

/-- Witness for C2: re-running the assigner over the store left by the
first run (rows (a,2), (b,6), (c,7), counter 7) reproduces the identical
numbers and leaves the counter at 7. -/
theorem preassign_idempotent_witness :
    preassignTranscriptNumbers (some 7) [("a", 2), ("b", 6), ("c", 7)]
        [{ _id := "a" }, { _id := "b" }, { _id := "c" }] =
      .ok { assigned := [({ _id := "a" }, 2), ({ _id := "b" }, 6), ({ _id := "c" }, 7)],
            newCounter := 7 } :=
  (preassign_idempotent 5 [("a", 2)]
    [{ _id := "a" }, { _id := "b" }, { _id := "c" }] (by decide) (by decide)).2.2

theorem insertCmp_perm (cmp : α → α → Int) (a : α) (l : List α) :
    (insertCmp cmp a l).Perm (a :: l) := by
  induction l with
  | nil => exact List.Perm.refl _
  | cons b t ih =>
    rw [insertCmp]
    by_cases h : cmp a b ≤ 0
    · rw [if_pos h]
    · rw [if_neg h]
      exact (ih.cons b).trans (List.Perm.swap a b t)

theorem sortByCmp_perm (cmp : α → α → Int) (l : List α) :
    (sortByCmp cmp l).Perm l := by
  induction l with
  | nil => exact List.Perm.refl _
  | cons a t ih => exact (insertCmp_perm cmp a _).trans (ih.cons a)

theorem insertCmp_pairwise (cmp : α → α → Int) (le : α → α → Prop)
    (htrans : ∀ a b c, le a b → le b c → le a c)
    (S : List α)
    (hS1 : ∀ a ∈ S, ∀ b ∈ S, cmp a b ≤ 0 → le a b)
    (hS2 : ∀ a ∈ S, ∀ b ∈ S, ¬ cmp a b ≤ 0 → le b a)
    (a : α) (ha : a ∈ S) :
    ∀ l, (∀ x ∈ l, x ∈ S) → l.Pairwise le → (insertCmp cmp a l).Pairwise le := by
  intro l
  induction l with
  | nil => intro _ _; simp [insertCmp]
  | cons b t ih =>
    intro hmem hp
    rcases List.pairwise_cons.mp hp with ⟨hbt, hpt⟩
    rw [insertCmp]
    by_cases h : cmp a b ≤ 0
    · rw [if_pos h]
      refine List.Pairwise.cons ?_ hp
      intro x hx
      have hab : le a b := hS1 a ha b (hmem b (List.mem_cons_self _ _)) h
      rcases List.mem_cons.mp hx with rfl | hx
      · exact hab
      · exact htrans a b x hab (hbt x hx)
    · rw [if_neg h]
      refine List.Pairwise.cons ?_
        (ih (fun x hx => hmem x (List.mem_cons_of_mem _ hx)) hpt)
      intro x hx
      have hx2 : x ∈ a :: t := (insertCmp_perm cmp a t).mem_iff.mp hx
      rcases List.mem_cons.mp hx2 with heq | hx2
      · rw [heq]
        exact hS2 a ha b (hmem b (List.mem_cons_self _ _)) h
      · exact hbt x hx2

theorem sortByCmp_pairwise (cmp : α → α → Int) (le : α → α → Prop)
    (htrans : ∀ a b c, le a b → le b c → le a c)
    (S : List α)
    (hS1 : ∀ a ∈ S, ∀ b ∈ S, cmp a b ≤ 0 → le a b)
    (hS2 : ∀ a ∈ S, ∀ b ∈ S, ¬ cmp a b ≤ 0 → le b a) :
    ∀ l, (∀ x ∈ l, x ∈ S) → (sortByCmp cmp l).Pairwise le := by
  intro l
  induction l with
  | nil => intro _; simp [sortByCmp]
  | cons a t ih =>
    intro hmem
    rw [sortByCmp]
    refine insertCmp_pairwise cmp le htrans S hS1 hS2 a
      (hmem a (List.mem_cons_self _ _)) _ ?_
      (ih fun x hx => hmem x (List.mem_cons_of_mem _ hx))
    intro x hx
    exact hmem x (List.mem_cons_of_mem _ ((sortByCmp_perm cmp t).mem_iff.mp hx))

theorem seqLexLe_trans : ∀ a b c, seqLexLe a b → seqLexLe b c → seqLexLe a c := by
  intro a b c hab hbc
  unfold seqLexLe at *
  rcases hab with h1 | ⟨h1, h2⟩ <;> rcases hbc with h3 | ⟨h3, h4⟩
  · exact Or.inl (lt_trans h1 h3)
  · exact Or.inl (by omega)
  · exact Or.inl (by omega)
  · refine Or.inr ⟨h1.trans h3, ?_⟩
    rcases h2 with h2 | ⟨h2, h5⟩ <;> rcases h4 with h4 | ⟨h4, h6⟩
    · exact Or.inl (lt_trans h2 h4)
    · exact Or.inl (by omega)
    · exact Or.inl (by omega)
    · exact Or.inr ⟨h2.trans h4, le_trans h5 h6⟩

theorem turnCompare_of_ne (a b : SequencedTurn) (h : a.startTime ≠ b.startTime) :
    turnCompare a b = a.startTime - b.startTime := by
  simp [turnCompare, h]

theorem turnCompare_rt (a b : SequencedTurn) (ht : a.startTime = b.startTime)
    (h1 : a.type = "request") (h2 : b.type = "text") : turnCompare a b = -1 := by
  simp [turnCompare, ht, h1, h2]

theorem turnCompare_tr (a b : SequencedTurn) (ht : a.startTime = b.startTime)
    (h1 : a.type = "text") (h2 : b.type = "request") : turnCompare a b = 1 := by
  simp [turnCompare, ht, h1, h2]

theorem turnCompare_seq (a b : SequencedTurn) (ht : a.startTime = b.startTime)
    (h1 : ¬(a.type = "request" ∧ b.type = "text"))
    (h2 : ¬(a.type = "text" ∧ b.type = "request")) :
    turnCompare a b = (a.sequence : Int) - b.sequence := by
  have e1 : ¬(a.type == "request" && b.type == "text") = true := by
    simp only [Bool.and_eq_true, beq_iff_eq]; exact h1
  have e2 : ¬(a.type == "text" && b.type == "request") = true := by
    simp only [Bool.and_eq_true, beq_iff_eq]; exact h2
  simp [turnCompare, ht, e1, e2]

theorem turnCompare_vs_lex (a b : SequencedTurn)
    (hP : a.startTime = b.startTime → a.type ≠ b.type →
      (a.type = "request" ∨ a.type = "text") ∧
        (b.type = "request" ∨ b.type = "text")) :
    (turnCompare a b ≤ 0 → seqLexLe a b) ∧
      (¬ turnCompare a b ≤ 0 → seqLexLe b a) := by
  unfold seqLexLe
  by_cases ht : a.startTime = b.startTime
  · by_cases hab : a.type = "request" ∧ b.type = "text"
    · have hc := turnCompare_rt a b ht hab.1 hab.2
      constructor
      · intro _
        exact Or.inr ⟨ht, Or.inl (by simp [typePriority, hab.1, hab.2])⟩
      · intro hcon; rw [hc] at hcon; omega
    · by_cases hba : a.type = "text" ∧ b.type = "request"
      · have hc := turnCompare_tr a b ht hba.1 hba.2
        constructor
        · intro hle; rw [hc] at hle; omega
        · intro _
          exact Or.inr ⟨ht.symm, Or.inl (by simp [typePriority, hba.1, hba.2])⟩
      · have hc := turnCompare_seq a b ht hab hba
        have hprio : typePriority a.type = typePriority b.type := by
          by_cases hty : a.type = b.type
          · rw [hty]
          · rcases hP ht hty with ⟨ha, hb⟩
            rcases ha with ha | ha <;> rcases hb with hb | hb
            · rw [ha, hb]
            · exact absurd ⟨ha, hb⟩ hab
            · exact absurd ⟨ha, hb⟩ hba
            · rw [ha, hb]
        constructor
        · intro hle; rw [hc] at hle
          exact Or.inr ⟨ht, Or.inr ⟨hprio, by omega⟩⟩
        · intro hgt; rw [hc] at hgt
          exact Or.inr ⟨ht.symm, Or.inr ⟨hprio.symm, by omega⟩⟩
  · have hc := turnCompare_of_ne a b ht
    constructor
    · intro hle; rw [hc] at hle
      exact Or.inl (by omega)
    · intro hgt; rw [hc] at hgt
      exact Or.inl (by omega)

/-- C3 amended: the normalized order is a permutation of the tagged input
sorted by start time ascending; and on every input in which any two
equal-timestamp turns of different types are one request and one text (the
comparator is then a consistent total preorder), a request sorts before a
text at an equal timestamp and all remaining equal-timestamp ties follow
the arrival index.  Without that condition the comparator is inconsistent,
the ECMAScript sort order is implementation-defined, and neither the
request-before-text rule nor arrival order is guaranteed (see the
counterexample). -/
theorem turnOrdering_spec (turns : List VoiceflowTurn) :
    (sortTurns turns).Perm (enhanceTurns turns) ∧
      (sortTurns turns).Pairwise (fun a b => a.startTime ≤ b.startTime) ∧
      ((∀ a ∈ enhanceTurns turns, ∀ b ∈ enhanceTurns turns,
          a.startTime = b.startTime → a.type ≠ b.type →
          (a.type = "request" ∨ a.type = "text") ∧
            (b.type = "request" ∨ b.type = "text")) →
        (sortTurns turns).Pairwise fun a b =>
          a.startTime = b.startTime →
            ¬(a.type = "text" ∧ b.type = "request") ∧
              (typePriority a.type = typePriority b.type →
                a.sequence ≤ b.sequence)) := by
  refine ⟨sortByCmp_perm _ _, ?_, ?_⟩
  · refine sortByCmp_pairwise turnCompare
      (fun a b => a.startTime ≤ b.startTime)
      (fun a b c h1 h2 => le_trans h1 h2)
      (enhanceTurns turns) ?_ ?_ _ (fun x hx => hx)
    · intro a _ b _ hle
      by_cases ht : a.startTime = b.startTime
      · exact le_of_eq ht
      · rw [turnCompare_of_ne a b ht] at hle; omega
    · intro a _ b _ hgt
      by_cases ht : a.startTime = b.startTime
      · exact le_of_eq ht.symm
      · rw [turnCompare_of_ne a b ht] at hgt; omega
  · intro hty
    have hpw : (sortTurns turns).Pairwise seqLexLe := by
      refine sortByCmp_pairwise turnCompare seqLexLe seqLexLe_trans
        (enhanceTurns turns) ?_ ?_ _ (fun x hx => hx)
      · intro a ha b hb hle
        exact (turnCompare_vs_lex a b (hty a ha b hb)).1 hle
      · intro a ha b hb hgt
        exact (turnCompare_vs_lex a b (hty a ha b hb)).2 hgt
    refine hpw.imp fun {a b} hl => ?_
    intro ht
    unfold seqLexLe at hl
    rcases hl with hl | ⟨_, hl⟩
    · exact absurd ht hl.ne
    rcases hl with hl | ⟨hpeq, hseq⟩
    · constructor
      · rintro ⟨hat, hbr⟩
        rw [hat, hbr] at hl
        simp [typePriority] at hl
      · intro hpeq
        exact absurd hpeq hl.ne
    · constructor
      · rintro ⟨hat, hbr⟩
        rw [hat, hbr] at hpeq
        simp [typePriority] at hpeq
      · intro _; exact hseq

/-- C3 counterexample: three turns all at timestamp 0 with types text,
other, request in arrival order: the comparator is inconsistent on this
input and the sorted output keeps the text turn before the request turn,
so a request does not always sort before a text at an equal timestamp. -/
theorem turnOrdering_cex :
    (sortTurns mixedTieTurns).map (fun t => t.type) =
        ["text", "other", "request"] ∧
      (∀ t ∈ mixedTieTurns, t.startTime = 0) ∧
      ¬ (sortTurns mixedTieTurns).Pairwise fun a b =>
          a.startTime = b.startTime → ¬(a.type = "text" ∧ b.type = "request") := by
  refine ⟨by decide, by decide, by decide⟩

/-- Witness for the amended C3: the equal-time request and text batch meets
the type condition, so the sorted output satisfies the full ordering rule:
requests before texts at equal timestamps and remaining ties in arrival
order. -/
theorem turnOrdering_spec_witness :
    (sortTurns requestTextTieTurns).Pairwise fun a b =>
        a.startTime = b.startTime →
          ¬(a.type = "text" ∧ b.type = "request") ∧
            (typePriority a.type = typePriority b.type →
              a.sequence ≤ b.sequence) :=
  (turnOrdering_spec requestTextTieTurns).2.2 (by decide)

end DashboardExpress
